import Mathlib

/-!
Verification development for the atlaskit label-comparison and
atlas-aggregation engine (atlas.py).

The 3D integer-coded label volumes are modelled voxelwise: a boolean mask
is a `Finset` of voxel coordinates (`ℤ × ℤ × ℤ`), the set of `True` voxels
of the numpy array.  Out-of-grid coordinates never belong to a mask, which
matches scipy's `binary_erosion` default `border_value = 0` (array borders
are treated as background).  Voxel spacings are rationals; the floating
point `NaN` results of `similarity` and `hausdorff_distance` are modelled
as `Option.none`.
-/

namespace Atlaskit

/-- A voxel coordinate in the 3D grid. -/
abbrev Voxel := ℤ × ℤ × ℤ

/-- Voxel dimensions in mm (`vox_mm` in atlas.py). -/
abbrev Spacing := ℚ × ℚ × ℚ

/-- The 27 offsets of the 3×3×3 all-ones structuring element used by
`binary_erosion(x, structure=np.ones([3,3,3]), iterations=1)`. -/
def erodeOffsets : List (ℤ × ℤ × ℤ) :=
  ([-1, 0, 1] : List ℤ).product ((([-1, 0, 1] : List ℤ).product ([-1, 0, 1] : List ℤ)))

/-- One-voxel binary erosion with the full 3×3×3 structuring element:
a voxel survives iff all 27 neighbours (itself included) are in the mask.
Out-of-bounds neighbours are background (`border_value=0`), which the
Finset membership test captures since a mask only contains grid voxels. -/
def binary_erosion (m : Finset Voxel) : Finset Voxel :=
  m.filter fun p => ∀ d ∈ erodeOffsets, (p.1 + d.1, p.2.1 + d.2.1, p.2.2 + d.2.2) ∈ m

/-- `surface_voxels` of atlas.py: the logical XOR (symmetric difference)
of a mask with its one-voxel erosion. -/
def surface_voxels (m : Finset Voxel) : Finset Voxel :=
  symmDiff m (binary_erosion m)

/-- Squared physical-space Euclidean distance between two voxels, each axis
difference scaled by the corresponding voxel dimension: the quantity under
the square root in `hausdorff_distance` of atlas.py. -/
def distSq (vox : Spacing) (a b : Voxel) : ℚ :=
  (((a.1 - b.1 : ℤ) : ℚ) * vox.1) ^ 2 + (((a.2.1 - b.2.1 : ℤ) : ℚ) * vox.2.1) ^ 2 +
    (((a.2.2 - b.2.2 : ℤ) : ℚ) * vox.2.2) ^ 2

/-- Executable squared-distance companion of `hausdorff_distance`: the
maximum over A-surface voxels of the minimum squared scaled distance to the
B surface, `none` when either surface point set is empty. -/
def hausdorffSq (A B : Finset Voxel) (vox : Spacing) : Option ℚ :=
  if h : (surface_voxels A).Nonempty ∧ (surface_voxels B).Nonempty then
    some ((surface_voxels A).sup' h.1 fun a => (surface_voxels B).inf' h.2 fun b => distSq vox a b)
  else none

/-- `hausdorff_distance` of atlas.py: directed Hausdorff distance in mm
from the surface of A to the surface of B.  The code takes
`np.min(np.sqrt(dx**2+dy**2+dz**2))` per A-surface voxel and then `np.max`;
when either surface is empty (`nA > 0 and nB > 0` fails) it returns NaN,
modelled as `none`. -/
noncomputable def hausdorff_distance (A B : Finset Voxel) (vox : Spacing) : Option ℝ :=
  if h : (surface_voxels A).Nonempty ∧ (surface_voxels B).Nonempty then
    some ((surface_voxels A).sup' h.1 fun a =>
      (surface_voxels B).inf' h.2 fun b => Real.sqrt ((distSq vox a b : ℚ) : ℝ))
  else none

/-- `similarity` of atlas.py: returns `(dice, haus, na, nb)`.  When
`na > 0 or nb > 0` the Dice coefficient is `2.0 * n_a_and_b / float(na+nb)`
and the Hausdorff distance is computed; otherwise both metrics are NaN
(`none` here). -/
noncomputable def similarity (mask_a mask_b : Finset Voxel) (vox : Spacing) :
    Option ℚ × Option ℝ × ℕ × ℕ :=
  if 0 < mask_a.card ∨ 0 < mask_b.card then
    (some (2 * ((mask_a ∩ mask_b).card : ℚ) / ((mask_a.card : ℚ) + (mask_b.card : ℚ))),
      hausdorff_distance mask_a mask_b vox, mask_a.card, mask_b.card)
  else (none, none, mask_a.card, mask_b.card)

/-- `get_label_name` of atlas.py: scan the label key rows in order,
starting from the sentinel name Unknown, overwriting the name at every row
whose Index equals the looked-up code.  A key row is modelled as the pair
(Index, Name); the colour and display columns are irrelevant to the
lookup. -/
def get_label_name (label_idx : ℤ) (label_key : List (ℤ × String)) : String :=
  label_key.foldl (fun label_name row => if label_idx = row.1 then row.2 else label_name)
    "Unknown"

/-- The label filtering step of `main` (atlas.py lines 194-200): every
label number whose `get_label_name` is Unknown is deleted from the
label-of-interest list before any analysis. -/
def remove_unknown_labels (label_nos : List ℤ) (label_key : List (ℤ × String)) : List ℤ :=
  label_nos.filter fun label_no => get_label_name label_no label_key != "Unknown"

/-- A voxel of the per-observer mean map of `label_stats_maps`:
`np.mean(labels_obs == label_no, axis=0)`, the mean over the observer's
templates of the 0/1 label mask.  `labels o t v` is the integer label code
of observer `o`, template `t` at voxel `v`. -/
def label_mean (labels : ℕ → ℕ → Voxel → ℤ) (n_tmp : ℕ) (oc : ℕ) (label_no : ℤ)
    (v : Voxel) : ℚ :=
  (∑ t ∈ Finset.range n_tmp, if labels oc t v = label_no then (1 : ℚ) else 0) / (n_tmp : ℚ)

/-- A voxel of the per-observer variance map of `label_stats_maps`:
`np.var(labels_obs == label_no, axis=0)`, the population variance
(`ddof = 0`) over templates of the 0/1 label mask. -/
def label_var (labels : ℕ → ℕ → Voxel → ℤ) (n_tmp : ℕ) (oc : ℕ) (label_no : ℤ)
    (v : Voxel) : ℚ :=
  (∑ t ∈ Finset.range n_tmp,
      ((if labels oc t v = label_no then (1 : ℚ) else 0) -
        label_mean labels n_tmp oc label_no v) ^ 2) / (n_tmp : ℚ)

/-- A voxel of the grand probabilistic atlas of `label_stats_maps`:
`np.mean(label_means, axis=4)`, the mean over observers of the
per-observer mean maps. -/
def prob_atlas (labels : ℕ → ℕ → Voxel → ℤ) (n_obs n_tmp : ℕ) (label_no : ℤ)
    (v : Voxel) : ℚ :=
  (∑ oc ∈ Finset.range n_obs, label_mean labels n_tmp oc label_no v) / (n_obs : ℚ)

/-- Population variance of the three spacing components of one volume:
the square of `np.std(vox_mm, axis=1)` taken at that volume's row. -/
def volumeStdSq (v : Spacing) : ℚ :=
  ((v.1 - (v.1 + v.2.1 + v.2.2) / 3) ^ 2 + (v.2.1 - (v.1 + v.2.1 + v.2.2) / 3) ^ 2 +
    (v.2.2 - (v.1 + v.2.1 + v.2.2) / 3) ^ 2) / 3

/-- Outcome of the voxel-dimension consistency check of `main`
(atlas.py line 174). -/
inductive SpacingCheck where
  | proceed
  | exitError
  | valueError
deriving DecidableEq

/-- The check `any(np.nonzero(np.std(vox_mm, axis=1)))` of `main`.
`np.std(vox_mm, axis=1)` is the per-volume standard deviation over the
THREE SPACING COMPONENTS of each volume, so the array is nonzero exactly at
anisotropic volumes; `np.nonzero` wraps the index array of those volumes in
a 1-tuple, and Python's `any` over that tuple evaluates the truth value of
the index array itself: `False` when it is empty, the truth of its single
entry when it has one (so index 0 counts as `False`), and a `ValueError`
when it has several entries.  `exitError` models the `sys.exit(1)` branch
and `valueError` the uncaught exception. -/
def spacing_check (vox_mm : List Spacing) : SpacingCheck :=
  match (List.range vox_mm.length).filter
      (fun i => decide (volumeStdSq (vox_mm.getD i (0, 0, 0)) ≠ 0)) with
  | [] => SpacingCheck.proceed
  | [i] => if i = 0 then SpacingCheck.proceed else SpacingCheck.exitError
  | _ => SpacingCheck.valueError

/-- The observer-collection loop of `main`: an observer whose directory
yields zero label volumes is skipped with a console message (atlas.py lines
160-164); only observers with at least one volume enter the grand list, and
no abort happens. -/
def load_observers {α : Type} (obs_vols : List (List α)) : List (List α) :=
  obs_vols.filter fun obs_labels => decide (0 < obs_labels.length)

/-- The `not vox_mm.any()` guard of `main` (atlas.py line 169): the run
aborts with exit status 1 exactly when no voxel-dimension row holds a
nonzero entry, in particular when no volume was loaded at all. -/
def no_images_check (vox_mm : List Spacing) : Bool :=
  !(vox_mm.any fun v => decide (v.1 ≠ 0) || decide (v.2.1 ≠ 0) || decide (v.2.2 ≠ 0))

/-- First 2×2×2 cube of the end-to-end scenario, at x ∈ {0,1}. -/
def cubeA : Finset Voxel :=
  ({0, 1} : Finset ℤ) ×ˢ (({0, 1} : Finset ℤ) ×ˢ ({0, 1} : Finset ℤ))

/-- Second 2×2×2 cube, separated from the first by 3 voxels along x. -/
def cubeB : Finset Voxel :=
  ({3, 4} : Finset ℤ) ×ˢ (({0, 1} : Finset ℤ) ×ˢ ({0, 1} : Finset ℤ))

/-- Single-voxel mask used to exhibit the Hausdorff asymmetry. -/
def maskP : Finset Voxel := {((0 : ℤ), (0 : ℤ), (0 : ℤ))}

/-- Two-voxel mask containing `maskP` plus a voxel 3 mm away. -/
def maskQ : Finset Voxel := {((0 : ℤ), (0 : ℤ), (0 : ℤ)), ((3 : ℤ), (0 : ℤ), (0 : ℤ))}

/-- A shared concrete one-voxel mask used by closed witnesses. -/
def unitMask : Finset Voxel := {((0 : ℤ), (0 : ℤ), (0 : ℤ))}

/-- Concrete label data for the C5 witness: any observer sees label 1 in
templates 0 and 1 and label 0 elsewhere, at every voxel. -/
def labelsEx : ℕ → ℕ → Voxel → ℤ := fun _ t _ => if t < 2 then 1 else 0

/-- Erosion only removes voxels: the eroded mask is a subset of the mask. -/
lemma binary_erosion_subset (m : Finset Voxel) : binary_erosion m ⊆ m :=
  Finset.filter_subset _ m

/-- Since the eroded mask is contained in the mask, the XOR computed by
`surface_voxels` coincides with the set difference mask minus eroded. -/
lemma surface_voxels_eq_sdiff (m : Finset Voxel) :
    surface_voxels m = m \ binary_erosion m := by
  have h : binary_erosion m ≤ m := binary_erosion_subset m
  simpa [surface_voxels] using symmDiff_of_ge h

/-- A nonempty finite mask always has a nonempty surface: a voxel of
maximal x-coordinate loses its x+1 neighbour and is removed by erosion. -/
lemma surface_voxels_nonempty (m : Finset Voxel) (hm : m.Nonempty) :
    (surface_voxels m).Nonempty := by
  obtain ⟨a, ha, hsup⟩ := Finset.exists_mem_eq_sup' hm fun p : Voxel => p.1
  refine ⟨a, ?_⟩
  rw [surface_voxels_eq_sdiff, Finset.mem_sdiff]
  refine ⟨ha, fun hero => ?_⟩
  rw [binary_erosion, Finset.mem_filter] at hero
  have hmem : ((1 : ℤ), (0 : ℤ), (0 : ℤ)) ∈ erodeOffsets := by decide
  have hnb := hero.2 _ hmem
  have hle : (a.1 + 1 : ℤ) ≤ m.sup' hm fun p : Voxel => p.1 :=
    Finset.le_sup' (fun p : Voxel => p.1) hnb
  rw [← hsup] at hle
  omega

/-- The real-valued Hausdorff distance equals the square root of the
executable squared-distance computation: `Real.sqrt` is monotone, so it
commutes with the inner minimum and the outer maximum. -/
lemma hausdorff_distance_eq_sqrt (A B : Finset Voxel) (vox : Spacing) :
    hausdorff_distance A B vox = (hausdorffSq A B vox).map fun q => Real.sqrt ((q : ℚ) : ℝ) := by
  by_cases h : (surface_voxels A).Nonempty ∧ (surface_voxels B).Nonempty
  · have hf : Monotone fun q : ℚ => Real.sqrt ((q : ℚ) : ℝ) := by
      intro x y hxy
      exact Real.sqrt_le_sqrt (by exact_mod_cast hxy)
    rw [hausdorff_distance, hausdorffSq, dif_pos h, dif_pos h, Option.map_some']
    congr 1
    rw [Finset.comp_sup'_eq_sup'_comp h.1 (fun q : ℚ => Real.sqrt ((q : ℚ) : ℝ))
      fun x y => hf.map_sup x y]
    refine Finset.sup'_congr h.1 rfl fun a _ => ?_
    rw [Function.comp_apply,
      Finset.comp_inf'_eq_inf'_comp h.2 (fun q : ℚ => Real.sqrt ((q : ℚ) : ℝ))
        fun x y => hf.map_inf x y]
    rfl
  · rw [hausdorff_distance, hausdorffSq, dif_neg h, dif_neg h, Option.map_none']

/-- Folding the key rows never changes the accumulator when no row carries
the looked-up code. -/
lemma foldl_label_key_of_not_mem (code : ℤ) (key : List (ℤ × String)) (acc : String)
    (h : ∀ row ∈ key, row.1 ≠ code) :
    key.foldl (fun label_name row => if code = row.1 then row.2 else label_name) acc = acc := by
  induction key generalizing acc with
  | nil => rfl
  | cons r t ih =>
    have hr : r.1 ≠ code := h r (List.mem_cons_self r t)
    rw [List.foldl_cons, if_neg fun hc => hr hc.symm]
    exact ih acc fun row hrow => h row (List.mem_cons_of_mem r hrow)

/-- Squared scaled distances are sums of squares, hence nonnegative. -/
lemma distSq_nonneg (vox : Spacing) (a b : Voxel) : 0 ≤ distSq vox a b := by
  rw [distSq]
  positivity

/-- The squared scaled distance from a voxel to itself vanishes. -/
lemma distSq_self (vox : Spacing) (a : Voxel) : distSq vox a a = 0 := by
  simp [distSq]

/-- Characterisation of the executable directed squared Hausdorff value:
it equals q when every A-surface voxel is within squared distance q of the
B surface and some A-surface voxel is at squared distance at least q from
every B-surface voxel. -/
lemma hausdorffSq_eq_of (A B : Finset Voxel) (vox : Spacing) (sA sB : Finset Voxel)
    (hsA : surface_voxels A = sA) (hsB : surface_voxels B = sB)
    (hA : sA.Nonempty) (hB : sB.Nonempty) (q : ℚ)
    (hub : ∀ a ∈ sA, ∃ b ∈ sB, distSq vox a b ≤ q)
    (hlb : ∃ a ∈ sA, ∀ b ∈ sB, q ≤ distSq vox a b) :
    hausdorffSq A B vox = some q := by
  subst hsA
  subst hsB
  rw [hausdorffSq, dif_pos ⟨hA, hB⟩]
  congr 1
  apply le_antisymm
  · apply Finset.sup'_le
    intro a ha
    obtain ⟨b, hb, hle⟩ := hub a ha
    exact le_trans (Finset.inf'_le _ hb) hle
  · obtain ⟨a0, ha0, hq⟩ := hlb
    refine le_trans ?_ (Finset.le_sup' _ ha0)
    exact Finset.le_inf' _ _ fun b hb => hq b hb

/-- Comparing any nonempty mask with itself gives squared distance 0. -/
lemma hausdorffSq_self (A : Finset Voxel) (hA : A.Nonempty) (vox : Spacing) :
    hausdorffSq A A vox = some 0 := by
  have hs : (surface_voxels A).Nonempty := surface_voxels_nonempty A hA
  refine hausdorffSq_eq_of A A vox (surface_voxels A) (surface_voxels A) rfl rfl hs hs 0
    (fun a ha => ⟨a, ha, le_of_eq (distSq_self vox a)⟩) ?_
  obtain ⟨a, ha⟩ := hs
  exact ⟨a, ha, fun b _ => distSq_nonneg vox a b⟩

/-- C6: the surface extractor is the XOR of the mask with its one-voxel
erosion under the 3×3×3 all-ones structuring element; the eroded mask is
contained in the original, so this equals the set difference mask minus
eroded, and the all-false mask yields an all-false surface. -/
theorem surface_voxels_spec (m : Finset Voxel) :
    surface_voxels m = symmDiff m (binary_erosion m) ∧
    binary_erosion m ⊆ m ∧
    surface_voxels m = m \ binary_erosion m ∧
    surface_voxels (∅ : Finset Voxel) = ∅ := by
  refine ⟨rfl, binary_erosion_subset m, surface_voxels_eq_sdiff m, ?_⟩
  rw [surface_voxels_eq_sdiff]
  simp

/-- C2: when both masks are empty, `similarity` returns NaN (here `none`)
for both metrics; otherwise the overlap coefficient is the Dice value
2·|A∩B|/(|A|+|B|), lies in [0,1], equals 1 iff the masks are identical and
nonempty, and equals 0 iff they are disjoint. -/
theorem similarity_dice_spec (A B : Finset Voxel) (vox : Spacing) :
    ((A.card = 0 ∧ B.card = 0) → similarity A B vox = (none, none, 0, 0)) ∧
    (0 < A.card + B.card →
      ∃ d : ℚ, (similarity A B vox).1 = some d ∧
        d = 2 * ((A ∩ B).card : ℚ) / ((A.card : ℚ) + (B.card : ℚ)) ∧
        0 ≤ d ∧ d ≤ 1 ∧ (d = 1 ↔ (A = B ∧ A.Nonempty)) ∧ (d = 0 ↔ Disjoint A B)) := by
  constructor
  · rintro ⟨hA, hB⟩
    simp [similarity, hA, hB]
  · intro hpos
    have hcond : 0 < A.card ∨ 0 < B.card := by omega
    have hxa : (A ∩ B).card ≤ A.card := Finset.card_le_card Finset.inter_subset_left
    have hxb : (A ∩ B).card ≤ B.card := Finset.card_le_card Finset.inter_subset_right
    have hden : (0 : ℚ) < (A.card : ℚ) + (B.card : ℚ) := by exact_mod_cast hpos
    refine ⟨_, by rw [similarity, if_pos hcond], rfl, ?_, ?_, ?_, ?_⟩
    · exact div_nonneg (by positivity) hden.le
    · rw [div_le_one hden]
      have : 2 * (A ∩ B).card ≤ A.card + B.card := by omega
      exact_mod_cast this
    · rw [div_eq_one_iff_eq hden.ne']
      constructor
      · intro hEq
        have hnat : 2 * (A ∩ B).card = A.card + B.card := by exact_mod_cast hEq
        have hca : (A ∩ B).card = A.card := by omega
        have hcb : (A ∩ B).card = B.card := by omega
        have hAB : A ⊆ B := by
          have := Finset.eq_of_subset_of_card_le Finset.inter_subset_left hca.ge
          exact Finset.inter_eq_left.mp this
        have hBA : B ⊆ A := by
          have := Finset.eq_of_subset_of_card_le Finset.inter_subset_right hcb.ge
          exact Finset.inter_eq_right.mp this
        have hABeq : A = B := Finset.Subset.antisymm hAB hBA
        refine ⟨hABeq, Finset.card_pos.mp ?_⟩
        omega
      · rintro ⟨hABeq, hne⟩
        subst hABeq
        rw [Finset.inter_self]
        ring
    · rw [div_eq_zero_iff]
      have hzero : ¬ ((A.card : ℚ) + (B.card : ℚ) = 0) := hden.ne'
      rw [Finset.disjoint_iff_inter_eq_empty]
      constructor
      · rintro (hnum | hbad)
        · have : ((A ∩ B).card : ℚ) = 0 := by linarith
          have : (A ∩ B).card = 0 := by exact_mod_cast this
          exact Finset.card_eq_zero.mp this
        · exact absurd hbad hzero
      · intro hint
        left
        rw [hint]
        simp

/-- Closed witness for the C2 theorem at the empty pair and the
self-comparison of a one-voxel mask. -/
theorem similarity_dice_spec_witness :
    ((∅ : Finset Voxel).card = 0 ∧ (∅ : Finset Voxel).card = 0) ∧
    similarity (∅ : Finset Voxel) (∅ : Finset Voxel) (1, 1, 1) = (none, none, 0, 0) ∧
    (0 < unitMask.card + unitMask.card) ∧
    (∃ d : ℚ, (similarity unitMask unitMask (1, 1, 1)).1 = some d ∧
      d = 2 * ((unitMask ∩ unitMask).card : ℚ) / ((unitMask.card : ℚ) + (unitMask.card : ℚ)) ∧
      0 ≤ d ∧ d ≤ 1 ∧ (d = 1 ↔ (unitMask = unitMask ∧ unitMask.Nonempty)) ∧
      (d = 0 ↔ Disjoint unitMask unitMask)) :=
  ⟨⟨rfl, rfl⟩, (similarity_dice_spec ∅ ∅ (1, 1, 1)).1 ⟨rfl, rfl⟩, by decide,
    (similarity_dice_spec unitMask unitMask (1, 1, 1)).2 (by decide)⟩

/-- C9: a label code carried by no row of the key is named Unknown by the
lookup, and is therefore removed from the label-of-interest list, so no
metric or atlas entry is ever produced for it. -/
theorem unknown_label_excluded (label_key : List (ℤ × String)) (label_nos : List ℤ) (code : ℤ)
    (h : ∀ row ∈ label_key, row.1 ≠ code) :
    get_label_name code label_key = "Unknown" ∧
    code ∉ remove_unknown_labels label_nos label_key := by
  have hname : get_label_name code label_key = "Unknown" :=
    foldl_label_key_of_not_mem code label_key "Unknown" h
  refine ⟨hname, fun hmem => ?_⟩
  rw [remove_unknown_labels] at hmem
  have hpred := (List.mem_filter.mp hmem).2
  rw [hname] at hpred
  simp at hpred

/-- Closed witness for the C9 theorem: code 5 is absent from a
one-row key naming only code 1. -/
theorem unknown_label_excluded_witness :
    (∀ row ∈ [((1 : ℤ), "Amygdala")], row.1 ≠ (5 : ℤ)) ∧
    get_label_name 5 [((1 : ℤ), "Amygdala")] = "Unknown" ∧
    (5 : ℤ) ∉ remove_unknown_labels [5] [((1 : ℤ), "Amygdala")] :=
  ⟨by decide, (unknown_label_excluded [((1 : ℤ), "Amygdala")] [5] 5 (by decide)).1,
    (unknown_label_excluded [((1 : ℤ), "Amygdala")] [5] 5 (by decide)).2⟩

/-- C10: any code whose lookup yields Unknown is excluded from analysis,
so a label genuinely named Unknown in the key is indistinguishable from a
missing code and is dropped; and the lookup returns the Name of the last
key row bearing the looked-up Index (later duplicate rows win). -/
theorem unknown_name_label_dropped :
    (∀ (label_key : List (ℤ × String)) (label_nos : List ℤ) (code : ℤ),
        get_label_name code label_key = "Unknown" →
        code ∉ remove_unknown_labels label_nos label_key) ∧
    (∀ (label_key : List (ℤ × String)) (code : ℤ),
        get_label_name code label_key =
          ((label_key.reverse.find? fun row => decide (code = row.1)).map Prod.snd).getD
            "Unknown") := by
  constructor
  · intro label_key label_nos code hname hmem
    rw [remove_unknown_labels] at hmem
    have hpred := (List.mem_filter.mp hmem).2
    rw [hname] at hpred
    simp at hpred
  · intro label_key code
    induction label_key using List.reverseRecOn with
    | nil => rfl
    | append_singleton t r ih =>
      rw [get_label_name, List.foldl_append, List.reverse_append]
      by_cases hc : code = r.1
      · simp [List.find?_cons, hc]
      · have hd : decide (code = r.1) = false := decide_eq_false hc
        simp only [List.foldl_cons, List.foldl_nil, if_neg hc, List.reverse_cons,
          List.reverse_nil, List.nil_append, List.singleton_append, List.find?_cons, hd]
        exact ih

/-- Closed witness for the C10 theorem: the code 5 named Unknown in the key
is excluded, and with duplicate rows for code 3 the later name wins. -/
theorem unknown_name_label_dropped_witness :
    get_label_name 5 [((5 : ℤ), "Unknown")] = "Unknown" ∧
    (5 : ℤ) ∉ remove_unknown_labels [5] [((5 : ℤ), "Unknown")] ∧
    get_label_name 3 [((3 : ℤ), "Left"), ((3 : ℤ), "Right")] = "Right" :=
  ⟨by decide, unknown_name_label_dropped.1 [((5 : ℤ), "Unknown")] [5] 5 (by decide), by decide⟩

/-- C5: the per-observer mean map gives a voxel labeled in exactly k of the
n templates the value k/n, the variance map is the population variance of
the 0/1 masks, which for indicator data equals mean·(1−mean), and the grand
probabilistic atlas is the mean over observers of the per-observer means,
i.e. the total labeled-template count divided by n_obs·n_tmp. -/
theorem label_stats_maps_spec (labels : ℕ → ℕ → Voxel → ℤ) (n_tmp n_obs : ℕ)
    (ht : 0 < n_tmp) (ho : 0 < n_obs) (oc : ℕ) (label_no : ℤ) (v : Voxel) :
    label_mean labels n_tmp oc label_no v =
      ((((Finset.range n_tmp).filter fun t => labels oc t v = label_no).card : ℚ) /
        ((n_tmp : ℕ) : ℚ)) ∧
    label_var labels n_tmp oc label_no v =
      label_mean labels n_tmp oc label_no v * (1 - label_mean labels n_tmp oc label_no v) ∧
    prob_atlas labels n_obs n_tmp label_no v =
      (∑ oc2 ∈ Finset.range n_obs,
        ((((Finset.range n_tmp).filter fun t => labels oc2 t v = label_no).card : ℚ))) /
        (((n_obs : ℕ) : ℚ) * ((n_tmp : ℕ) : ℚ)) := by
  have hn : ((n_tmp : ℕ) : ℚ) ≠ 0 := (Nat.cast_pos.mpr ht).ne'
  have hsum : ∀ o : ℕ,
      (∑ t ∈ Finset.range n_tmp, if labels o t v = label_no then (1 : ℚ) else 0) =
        (((Finset.range n_tmp).filter fun t => labels o t v = label_no).card : ℚ) := by
    intro o
    rw [Finset.sum_boole]
  have hmean : ∀ o : ℕ, label_mean labels n_tmp o label_no v =
      ((((Finset.range n_tmp).filter fun t => labels o t v = label_no).card : ℚ) /
        ((n_tmp : ℕ) : ℚ)) := by
    intro o
    rw [label_mean, hsum]
  refine ⟨hmean oc, ?_, ?_⟩
  · set μ := label_mean labels n_tmp oc label_no v with hμ
    have hexp : ∀ t ∈ Finset.range n_tmp,
        ((if labels oc t v = label_no then (1 : ℚ) else 0) - μ) ^ 2 =
          (if labels oc t v = label_no then (1 : ℚ) else 0) -
            2 * μ * (if labels oc t v = label_no then (1 : ℚ) else 0) + μ ^ 2 := by
      intro t _
      split <;> ring
    rw [label_var, Finset.sum_congr rfl hexp]
    rw [Finset.sum_add_distrib, Finset.sum_sub_distrib, hsum, ← Finset.mul_sum, hsum,
      Finset.sum_const, Finset.card_range, nsmul_eq_mul]
    have hk : (((Finset.range n_tmp).filter fun t => labels oc t v = label_no).card : ℚ) =
        μ * ((n_tmp : ℕ) : ℚ) := by
      rw [hμ, hmean oc, div_mul_cancel₀ _ hn]
    rw [hk]
    field_simp
    ring
  · rw [prob_atlas, Finset.sum_congr rfl fun o _ => hmean o, ← Finset.sum_div, div_div,
      mul_comm]

/-- Closed witness for the C5 theorem: one observer, three templates, the
label present in templates 0 and 1 only, giving mean 2/3 at the voxel. -/
theorem label_stats_maps_spec_witness :
    (0 < 3 ∧ 0 < 1) ∧
    (label_mean labelsEx 3 0 1 (0, 0, 0) =
      ((((Finset.range 3).filter fun t => labelsEx 0 t ((0 : ℤ), (0 : ℤ), (0 : ℤ)) = 1).card :
          ℚ) / ((3 : ℕ) : ℚ)) ∧
    label_var labelsEx 3 0 1 (0, 0, 0) =
      label_mean labelsEx 3 0 1 (0, 0, 0) * (1 - label_mean labelsEx 3 0 1 (0, 0, 0)) ∧
    prob_atlas labelsEx 1 3 1 (0, 0, 0) =
      (∑ oc2 ∈ Finset.range 1,
        ((((Finset.range 3).filter fun t => labelsEx oc2 t ((0 : ℤ), (0 : ℤ), (0 : ℤ)) = 1).card :
            ℚ))) / (((1 : ℕ) : ℚ) * ((3 : ℕ) : ℚ))) :=
  ⟨⟨by decide, by decide⟩,
    label_stats_maps_spec labelsEx 3 1 (by decide) (by decide) 0 1 (0, 0, 0)⟩

/-- C7: comparing a nonempty mask with itself yields overlap 1 and
boundary distance 0; comparing the empty mask with itself yields NaN
(`none`) for both metrics. -/
theorem self_similarity_spec (A : Finset Voxel) (vox : Spacing)
    (hvox : 0 < vox.1 ∧ 0 < vox.2.1 ∧ 0 < vox.2.2) :
    (A.Nonempty → similarity A A vox = (some 1, some 0, A.card, A.card)) ∧
    (A = ∅ → similarity A A vox = (none, none, 0, 0)) := by
  constructor
  · intro hA
    have hcard : 0 < A.card := Finset.card_pos.mpr hA
    have hh : hausdorff_distance A A vox = some 0 := by
      rw [hausdorff_distance_eq_sqrt, hausdorffSq_self A hA vox, Option.map_some']
      norm_num
    have hdice : 2 * ((A ∩ A).card : ℚ) / ((A.card : ℚ) + (A.card : ℚ)) = 1 := by
      rw [Finset.inter_self]
      have hc : ((A.card : ℚ)) ≠ 0 := by
        exact_mod_cast hcard.ne'
      field_simp
      ring
    rw [similarity, if_pos (Or.inl hcard), hh, hdice]
  · intro hA
    subst hA
    rw [similarity]
    simp

/-- Closed witness for the C7 theorem at a one-voxel mask with unit
spacing. -/
theorem self_similarity_spec_witness :
    ((0 : ℚ) < 1 ∧ (0 : ℚ) < 1 ∧ (0 : ℚ) < 1) ∧ unitMask.Nonempty ∧
    similarity unitMask unitMask (1, 1, 1) = (some 1, some 0, unitMask.card, unitMask.card) :=
  ⟨⟨by norm_num, by norm_num, by norm_num⟩, ⟨((0 : ℤ), (0 : ℤ), (0 : ℤ)), by decide⟩,
    (self_similarity_spec unitMask (1, 1, 1) ⟨by norm_num, by norm_num, by norm_num⟩).1
      ⟨((0 : ℤ), (0 : ℤ), (0 : ℤ)), by decide⟩⟩

/-- C3: for a pair of masks with at least one nonempty, the boundary
distance of `similarity` is NaN (`none`) when either surface set is empty,
and otherwise is the directed Hausdorff distance: the supremum over the A
surface of the infimum over the B surface of the physical-space Euclidean
distance with each axis difference scaled by the voxel spacing. -/
theorem similarity_boundary_distance_spec (A B : Finset Voxel) (vox : Spacing)
    (h : A.Nonempty ∨ B.Nonempty) :
    (¬ ((surface_voxels A).Nonempty ∧ (surface_voxels B).Nonempty) →
      (similarity A B vox).2.1 = none) ∧
    (((surface_voxels A).Nonempty ∧ (surface_voxels B).Nonempty) →
      (similarity A B vox).2.1 =
        some (sSup ((fun a : Voxel => sInf ((fun b : Voxel =>
          Real.sqrt ((((a.1 - b.1 : ℤ) : ℝ) * (vox.1 : ℝ)) ^ 2 +
            (((a.2.1 - b.2.1 : ℤ) : ℝ) * (vox.2.1 : ℝ)) ^ 2 +
            (((a.2.2 - b.2.2 : ℤ) : ℝ) * (vox.2.2 : ℝ)) ^ 2)) '' (surface_voxels B : Set Voxel))) ''
          (surface_voxels A : Set Voxel)))) := by
  have hcond : 0 < A.card ∨ 0 < B.card := by
    rcases h with h | h
    · exact Or.inl (Finset.card_pos.mpr h)
    · exact Or.inr (Finset.card_pos.mpr h)
  have hsim : (similarity A B vox).2.1 = hausdorff_distance A B vox := by
    rw [similarity, if_pos hcond]
  constructor
  · intro hns
    rw [hsim, hausdorff_distance, dif_neg hns]
  · rintro ⟨hA, hB⟩
    rw [hsim, hausdorff_distance, dif_pos ⟨hA, hB⟩]
    congr 1
    rw [Finset.sup'_eq_csSup_image]
    congr 1
    apply Set.image_congr
    intro a _
    rw [Finset.inf'_eq_csInf_image]
    congr 1
    apply Set.image_congr
    intro b _
    congr 1
    push_cast [distSq]
    ring

/-- Closed witness for the C3 theorem: a one-voxel mask against the empty
mask has an empty B surface, so the boundary distance is NaN. -/
theorem similarity_boundary_distance_spec_witness :
    (unitMask.Nonempty ∨ (∅ : Finset Voxel).Nonempty) ∧
    ¬ ((surface_voxels unitMask).Nonempty ∧ (surface_voxels (∅ : Finset Voxel)).Nonempty) ∧
    (similarity unitMask (∅ : Finset Voxel) (1, 1, 1)).2.1 = none :=
  ⟨Or.inl ⟨((0 : ℤ), (0 : ℤ), (0 : ℤ)), by decide⟩, by decide,
    (similarity_boundary_distance_spec unitMask ∅ (1, 1, 1)
      (Or.inl ⟨((0 : ℤ), (0 : ℤ), (0 : ℤ)), by decide⟩)).1 (by decide)⟩

/-- C4: two disjoint 2×2×2 cubes of the same label, 3 voxels apart along
the x axis at unit voxel spacing, compare with overlap 0 and directed
boundary distance 3.0 mm in both directions. -/
theorem two_cubes_scenario :
    similarity cubeA cubeB (1, 1, 1) = (some 0, some 3, 8, 8) ∧
    similarity cubeB cubeA (1, 1, 1) = (some 0, some 3, 8, 8) := by
  have hSA : surface_voxels cubeA = cubeA := by decide
  have hSB : surface_voxels cubeB = cubeB := by decide
  have hint : (cubeA ∩ cubeB).card = 0 := by decide
  have hintBA : (cubeB ∩ cubeA).card = 0 := by decide
  have hca : cubeA.card = 8 := by decide
  have hcb : cubeB.card = 8 := by decide
  have hsqAB : hausdorffSq cubeA cubeB (1, 1, 1) = some 9 := by
    refine hausdorffSq_eq_of _ _ _ cubeA cubeB hSA hSB (by decide) (by decide) 9 ?_ ?_
    · intro a ha
      simp only [cubeA, Finset.mem_product, Finset.mem_insert, Finset.mem_singleton] at ha
      obtain ⟨hx, hy, hz⟩ := ha
      refine ⟨(3, a.2.1, a.2.2), ?_, ?_⟩
      · simp only [cubeB, Finset.mem_product, Finset.mem_insert, Finset.mem_singleton]
        exact ⟨Or.inl trivial, hy, hz⟩
      · rcases hx with hx | hx <;> simp [distSq, hx] <;> norm_num
    · refine ⟨((0 : ℤ), (0 : ℤ), (0 : ℤ)), by decide, ?_⟩
      intro b hb
      simp only [cubeB, Finset.mem_product, Finset.mem_insert, Finset.mem_singleton] at hb
      obtain ⟨hx, hy, hz⟩ := hb
      rcases hx with hx | hx <;> rcases hy with hy | hy <;> rcases hz with hz | hz <;>
        simp [distSq, hx, hy, hz] <;> norm_num
  have hsqBA : hausdorffSq cubeB cubeA (1, 1, 1) = some 9 := by
    refine hausdorffSq_eq_of _ _ _ cubeB cubeA hSB hSA (by decide) (by decide) 9 ?_ ?_
    · intro a ha
      simp only [cubeB, Finset.mem_product, Finset.mem_insert, Finset.mem_singleton] at ha
      obtain ⟨hx, hy, hz⟩ := ha
      refine ⟨(1, a.2.1, a.2.2), ?_, ?_⟩
      · simp only [cubeA, Finset.mem_product, Finset.mem_insert, Finset.mem_singleton]
        exact ⟨Or.inr trivial, hy, hz⟩
      · rcases hx with hx | hx <;> simp [distSq, hx] <;> norm_num
    · refine ⟨((4 : ℤ), (0 : ℤ), (0 : ℤ)), by decide, ?_⟩
      intro b hb
      simp only [cubeA, Finset.mem_product, Finset.mem_insert, Finset.mem_singleton] at hb
      obtain ⟨hx, hy, hz⟩ := hb
      rcases hx with hx | hx <;> rcases hy with hy | hy <;> rcases hz with hz | hz <;>
        simp [distSq, hx, hy, hz] <;> norm_num
  have hsqrt9 : Real.sqrt ((9 : ℚ) : ℝ) = 3 := by
    rw [show ((9 : ℚ) : ℝ) = (3 : ℝ) ^ 2 by norm_num]
    exact Real.sqrt_sq (by norm_num)
  have hdAB : hausdorff_distance cubeA cubeB (1, 1, 1) = some 3 := by
    rw [hausdorff_distance_eq_sqrt, hsqAB, Option.map_some', hsqrt9]
  have hdBA : hausdorff_distance cubeB cubeA (1, 1, 1) = some 3 := by
    rw [hausdorff_distance_eq_sqrt, hsqBA, Option.map_some', hsqrt9]
  constructor
  · rw [similarity, if_pos (Or.inl (by decide)), hint, hca, hcb, hdAB]
    norm_num
  · rw [similarity, if_pos (Or.inl (by decide)), hintBA, hca, hcb, hdBA]
    norm_num

/-- C8: the overlap coefficient of `similarity` is symmetric in its two
mask arguments, while the boundary distance is directed: from the single
voxel `maskP` into the containing `maskQ` it is 0, but from `maskQ` back to
`maskP` it is 3. -/
theorem dice_symmetric_hausdorff_asymmetric :
    (∀ (A B : Finset Voxel) (vox : Spacing), (similarity A B vox).1 = (similarity B A vox).1) ∧
    hausdorff_distance maskP maskQ (1, 1, 1) = some 0 ∧
    hausdorff_distance maskQ maskP (1, 1, 1) = some 3 ∧ ((0 : ℝ) ≠ 3) := by
  have hSP : surface_voxels maskP = maskP := by decide
  have hSQ : surface_voxels maskQ = maskQ := by decide
  refine ⟨?_, ?_, ?_, by norm_num⟩
  · intro A B vox
    by_cases hc : 0 < A.card ∨ 0 < B.card
    · unfold similarity
      rw [if_pos hc, if_pos hc.symm]
      dsimp only
      rw [Finset.inter_comm, add_comm ((A.card : ℚ)) ((B.card : ℚ))]
    · unfold similarity
      rw [if_neg hc, if_neg fun hcc => hc hcc.symm]
  · have hsq : hausdorffSq maskP maskQ (1, 1, 1) = some 0 := by
      refine hausdorffSq_eq_of _ _ _ maskP maskQ hSP hSQ (by decide) (by decide) 0 ?_ ?_
      · intro a ha
        simp only [maskP, Finset.mem_singleton] at ha
        subst ha
        exact ⟨((0 : ℤ), (0 : ℤ), (0 : ℤ)), by decide, le_of_eq (distSq_self _ _)⟩
      · exact ⟨((0 : ℤ), (0 : ℤ), (0 : ℤ)), by decide, fun b _ => distSq_nonneg _ _ _⟩
    rw [hausdorff_distance_eq_sqrt, hsq, Option.map_some']
    norm_num
  · have hsq : hausdorffSq maskQ maskP (1, 1, 1) = some 9 := by
      refine hausdorffSq_eq_of _ _ _ maskQ maskP hSQ hSP (by decide) (by decide) 9 ?_ ?_
      · intro a ha
        simp only [maskQ, Finset.mem_insert, Finset.mem_singleton] at ha
        refine ⟨((0 : ℤ), (0 : ℤ), (0 : ℤ)), by decide, ?_⟩
        rcases ha with ha | ha <;> subst ha <;> simp [distSq] <;> norm_num
      · refine ⟨((3 : ℤ), (0 : ℤ), (0 : ℤ)), by decide, ?_⟩
        intro b hb
        simp only [maskP, Finset.mem_singleton] at hb
        subst hb
        simp [distSq]
        norm_num
    rw [hausdorff_distance_eq_sqrt, hsq, Option.map_some']
    rw [show ((9 : ℚ) : ℝ) = (3 : ℝ) ^ 2 by norm_num]
    exact congrArg some (Real.sqrt_sq (by norm_num))

/-- C1 evaluated at concrete inputs: the voxel-dimension check accepts two
volumes whose spacings (2,2,2) and (3,3,3) disagree with each other
(`np.std(vox_mm, axis=1)` varies over each volume's components, not across
volumes), an observer contributing zero volumes is skipped rather than
fatal, and only the genuinely empty volume set triggers the abort. -/
theorem spacing_mismatch_not_fatal :
    spacing_check [((2 : ℚ), (2 : ℚ), (2 : ℚ)), ((3 : ℚ), (3 : ℚ), (3 : ℚ))] =
      SpacingCheck.proceed ∧
    load_observers [[(0 : ℕ)], []] = [[(0 : ℕ)]] ∧
    no_images_check [] = true := by
  refine ⟨?_, by decide, by decide⟩
  have h1 : volumeStdSq (2, 2, 2) = 0 := by norm_num [volumeStdSq]
  have h2 : volumeStdSq (3, 3, 3) = 0 := by norm_num [volumeStdSq]
  simp [spacing_check, List.range_succ, List.filter_cons, List.filter_nil, List.getD, h1, h2]

end Atlaskit
